import Mathlib

/-!
Verification of the Luau heap-introspection subsystem (VM/src/lgcdebug.cpp):
the GC invariant validator, the JSON heap dump exporter, and the heap
enumeration callback API.

Modelling conventions:
* C assertion sequences (`LUAU_ASSERT`) become Bool-valued functions; the
  function returns `true` exactly when no assertion fires.
* Machine integers become `Nat`/`Int`; pointers become `Nat` addresses.
* A pointer value is modelled as the address bundled with the pointee
  fields that this module reads through the pointer (the heap is
  read-only and stable for the duration of a pass).
* Helpers that live in headers outside src/ (lua.h tag values, lgc.h color
  macros, lstring.h/ludata.h size macros, ltm.h metamethod lookup) are
  modelled from the spec; each such definition says so in its doc comment.
-/

set_option maxHeartbeats 1000000

namespace LuauGcDebug

/-- Modelled from the spec: object tag values of the runtime's tagged
variant (lua.h, outside src/). Order matters only in that collectable
tags start at `LUA_TSTRING`. -/
def LUA_TNIL : Nat := 0

def LUA_TBOOLEAN : Nat := 1

def LUA_TLIGHTUSERDATA : Nat := 2

def LUA_TNUMBER : Nat := 3

def LUA_TVECTOR : Nat := 4

def LUA_TSTRING : Nat := 5

def LUA_TTABLE : Nat := 6

def LUA_TFUNCTION : Nat := 7

def LUA_TUSERDATA : Nat := 8

def LUA_TTHREAD : Nat := 9

def LUA_TBUFFER : Nat := 10

def LUA_TPROTO : Nat := 11

def LUA_TUPVAL : Nat := 12

def LUA_TDEADKEY : Nat := 13

/-- Modelled from the spec: mark color of a heap object (two white shades,
gray, black), as encoded by the `marked` bit masks of lgc.h (outside src/). -/
inductive Color where
  | white0
  | white1
  | gray
  | black
  deriving DecidableEq, Repr

/-- Modelled from the spec: collector phase as reported by `g->gcstate`. -/
inductive GCState where
  | GCSpause
  | GCSpropagate
  | GCSpropagateagain
  | GCSatomic
  | GCSsweep
  deriving DecidableEq, Repr

/-- The slice of `global_State` the validator reads: collector phase and
which white shade is current this cycle. -/
structure GState where
  gcstate : GCState
  currentwhite0 : Bool
  deriving DecidableEq, Repr

/-- Modelled from the spec: `iswhite` color test (lgc.h, outside src/). -/
def iswhite (c : Color) : Bool :=
  match c with
  | .white0 => true
  | .white1 => true
  | _ => false

/-- Modelled from the spec: `isblack` color test (lgc.h, outside src/). -/
def isblack (c : Color) : Bool :=
  match c with
  | .black => true
  | _ => false

/-- Modelled from the spec: `isgray` color test (lgc.h, outside src/). -/
def isgray (c : Color) : Bool :=
  !iswhite c && !isblack c

/-- Modelled from the spec: `isdead g o` holds when the object carries the
white shade of the previous cycle (the "other" white), i.e. it was not
reached by the current mark phase (lgc.h, outside src/). -/
def isdead (g : GState) (c : Color) : Bool :=
  match c with
  | .white0 => !g.currentwhite0
  | .white1 => g.currentwhite0
  | _ => false

/-- Modelled from the spec: `keepinvariant g` — the collector reports an
invariant-preserving phase (the mark phases; lgc.h, outside src/). -/
def keepinvariant (g : GState) : Bool :=
  g.gcstate = .GCSpropagate || g.gcstate = .GCSpropagateagain || g.gcstate = .GCSatomic

/-! ## Validator object model

A `VTValue` models a `TValue` slot as the validator reads it: its tag
byte `tt`, and — meaningful only when the slot is collectable — the
pointee's header tag `otag` and mark color `col` (the C union always has
these bits reachable through the pointer; we carry them alongside). -/

structure VTValue where
  tt : Nat
  otag : Nat
  col : Color
  deriving DecidableEq, Repr

/-- A nil `TValue` (the pointee fields are junk, as in the C union). -/
def VTValue.nilv : VTValue := ⟨LUA_TNIL, 0, .white0⟩

/-- Modelled from the spec: `iscollectable(o)` is `ttype(o) >= LUA_TSTRING`
(lobject.h, outside src/). -/
def iscollectableV (v : VTValue) : Bool :=
  LUA_TSTRING ≤ v.tt

/-- Model of `ttisnil` on a modelled slot. -/
def ttisnilV (v : VTValue) : Bool :=
  v.tt = LUA_TNIL

/-- Model of `validateobjref` (lgcdebug.cpp:19): always assert the target is not
dead; under `keepinvariant` also assert a black source does not point to
a white target. -/
def validateobjref (g : GState) (f t : Color) : Bool :=
  !isdead g t && (if keepinvariant g then !(isblack f && iswhite t) else true)

/-- Model of `validateref` (lgcdebug.cpp:30): for collectable slots, assert the
value tag matches the pointee header tag, then `validateobjref`. -/
def validateref (g : GState) (f : Color) (v : VTValue) : Bool :=
  if iscollectableV v then (v.tt = v.otag) && validateobjref g f v.col else true

/-- Modelled from the spec: `checkliveness(g,obj)` (lstate.h, outside src/)
asserts a collectable slot has a matching tag and a non-dead pointee. -/
def checkliveness (g : GState) (v : VTValue) : Bool :=
  !iscollectableV v || ((v.tt = v.otag) && !isdead g v.col)

/-- A hash node as the validator reads it: key, value, chain offset. -/
structure VNode where
  key : VTValue
  val : VTValue
  next : Int
  deriving DecidableEq, Repr

/-- A `LuaTable` as the validator reads it. The node array's length is
`1 << lsizenode` by allocator construction; we model the array directly,
so `node.length` stands for `sizenode(h)`. -/
structure VTable where
  lastfree : Nat
  node : List VNode
  array : List VTValue
  metatable : Option Color
  deriving DecidableEq, Repr

/-- Model of `validatetable` (lgcdebug.cpp:39): free-cursor bound, metatable edge,
array slots, and per-node dead-key/chain-bound/key/value checks. -/
def validatetable (g : GState) (c : Color) (h : VTable) : Bool :=
  (h.lastfree ≤ h.node.length) &&
  (match h.metatable with
   | some mc => validateobjref g c mc
   | none => true) &&
  h.array.all (fun v => validateref g c v) &&
  h.node.enum.all (fun (i, n) =>
    (!(n.key.tt = LUA_TDEADKEY) || ttisnilV n.val) &&
    (0 ≤ (i : Int) + n.next && (i : Int) + n.next < (h.node.length : Int)) &&
    (if !ttisnilV n.val then validateref g c n.key && validateref g c n.val else true))

/-- Kind-specific payload of a closure as the validator reads it:
a C closure's bound upvalue slots, or a Lua closure's prototype (color
and declared upvalue count) and upvalue references. -/
inductive VClosureImpl where
  | c (upvals : List VTValue)
  | lua (pcol : Color) (pnups : Nat) (uprefs : List VTValue)
  deriving DecidableEq, Repr

/-- A `Closure` as the validator reads it (`nupvalues` is the length of
the modelled upvalue slot list). -/
structure VClosure where
  env : Color
  impl : VClosureImpl
  deriving DecidableEq, Repr

/-- Model of `validateclosure` (lgcdebug.cpp:70): environment edge; C closures
check each bound upvalue slot, Lua closures check the upvalue-count
equality, the prototype edge, and each upvalue reference. -/
def validateclosure (g : GState) (c : Color) (cl : VClosure) : Bool :=
  validateobjref g c cl.env &&
  (match cl.impl with
   | .c upvals => upvals.all (fun v => validateref g c v)
   | .lua pcol pnups uprefs =>
       (uprefs.length = pnups) && validateobjref g c pcol &&
       uprefs.all (fun v => validateref g c v))

/-- A call frame as the validator reads it: `base`, `func`, `top` stack
positions (C compares `StkId` pointers; we model positions as `Nat`). -/
structure VFrame where
  base : Nat
  func : Nat
  top : Nat
  deriving DecidableEq, Repr

/-- An entry of a thread's open-upvalue list as the validator reads it.
`ringOk` stands for the prev/next mutual-consistency test
`uv->u.open.next->u.open.prev == uv && uv->u.open.prev->u.open.next == uv`
(the ring's pointer structure itself is abstracted). -/
structure VOpenUpval where
  tt : Nat
  isopen : Bool
  ringOk : Bool
  col : Color
  deriving DecidableEq, Repr

/-- A `lua_State` (thread) as the validator reads it. `frames` lists the
call frames from `base_ci` to `ci`; `stackvals` the live slots from
`stack` to `top`. -/
structure VThread where
  stack : Nat
  stack_last : Nat
  gt : Color
  frames : List VFrame
  stackvals : List VTValue
  namecall : Option Color
  openupvals : List VOpenUpval
  deriving DecidableEq, Repr

/-- Model of `validatestack` (lgcdebug.cpp:90): globals edge; per-frame bounds
(`stack <= base`, `func <= base <= top`, `top <= stack_last`); liveness
of live stack slots (stack refs may transiently break the tri-color rule,
so only liveness is checked); pending namecall edge; open-upvalue list
checks (tag, openness, ring consistency, never black). -/
def validatestack (g : GState) (c : Color) (l : VThread) : Bool :=
  validateobjref g c l.gt &&
  l.frames.all (fun ci =>
    (l.stack ≤ ci.base) && (ci.func ≤ ci.base && ci.base ≤ ci.top) && (ci.top ≤ l.stack_last)) &&
  l.stackvals.all (fun v => checkliveness g v) &&
  (match l.namecall with
   | some nc => validateobjref g c nc
   | none => true) &&
  l.openupvals.all (fun uv =>
    (uv.tt = LUA_TUPVAL) && uv.isopen && uv.ringOk && !isblack uv.col)

/-- A `Proto` as the validator reads it: optional source/debug-name
strings, constants, captured-upvalue names, nested prototypes, and
local-variable names (absent optional entries are `none`). -/
structure VProto where
  source : Option Color
  debugname : Option Color
  k : List VTValue
  upvalues : List (Option Color)
  p : List (Option Color)
  locvars : List (Option Color)
  deriving DecidableEq, Repr

/-- Model of `validateproto` (lgcdebug.cpp:117): tri-color checks on source name,
debug name, constants, upvalue names, nested protos, local names. -/
def validateproto (g : GState) (c : Color) (f : VProto) : Bool :=
  (match f.source with
   | some sc => validateobjref g c sc
   | none => true) &&
  (match f.debugname with
   | some dc => validateobjref g c dc
   | none => true) &&
  f.k.all (fun v => validateref g c v) &&
  f.upvalues.all (fun u => match u with
    | some uc => validateobjref g c uc
    | none => true) &&
  f.p.all (fun sp => match sp with
    | some pc => validateobjref g c pc
    | none => true) &&
  f.locvars.all (fun lv => match lv with
    | some vc => validateobjref g c vc
    | none => true)

/-- A heap object as the validator sees it: mark color plus kind-specific
payload. `unknown` models an object whose tag byte is not one of the
recognized kinds (the `default:` case of the C switch). -/
inductive VObj where
  | str (col : Color)
  | table (col : Color) (h : VTable)
  | closure (col : Color) (cl : VClosure)
  | udata (col : Color) (metatable : Option Color)
  | thread (col : Color) (th : VThread)
  | buffer (col : Color)
  | proto (col : Color) (p : VProto)
  | upval (col : Color) (v : VTValue)
  | unknown (col : Color) (tt : Nat)
  deriving DecidableEq, Repr

/-- Mark color of a validator-view object. -/
def VObj.colorOf : VObj → Color
  | .str c => c
  | .table c _ => c
  | .closure c _ => c
  | .udata c _ => c
  | .thread c _ => c
  | .buffer c => c
  | .proto c _ => c
  | .upval c _ => c
  | .unknown c _ => c

/-- Model of `validateobj` (lgcdebug.cpp:141): a dead object is legal only during
sweep (and its per-kind checks are skipped); a live object dispatches to
its kind-specific checks; an unrecognized tag is a fatal assertion. -/
def validateobj (g : GState) (o : VObj) : Bool :=
  if isdead g o.colorOf then g.gcstate = .GCSsweep
  else
    match o with
    | .str _ => true
    | .table c h => validatetable g c h
    | .closure c cl => validateclosure g c cl
    | .udata c mt =>
        match mt with
        | some mc => validateobjref g c mc
        | none => true
    | .thread c th => validatestack g c th
    | .buffer _ => true
    | .proto c p => validateproto g c p
    | .upval c v => validateref g c v
    | .unknown _ _ => false

/-! ## JSON dump string escaping -/

/-- Model of `safejson` (lgcdebug.cpp:255) translated to the byte domain 0..255:
`unsigned(ch) < 128 && ch >= 32 && ch != '\\' && ch != '"'`. For a byte
`b >= 128` the signed `char` is negative, so both the unsigned cast test
and `ch >= 32` fail; for `b < 128` both C tests read `b` directly. -/
def safejson (b : Nat) : Bool :=
  (b < 128) && (32 ≤ b) && !(b = 92) && !(b = 34)

/-- Model of `dumpstringdata` (lgcdebug.cpp:282): each payload byte is written
verbatim when `safejson`, else replaced by `'?'` (byte 63). -/
def dumpstringdata (data : List Nat) : List Nat :=
  data.map (fun b => if safejson b then b else 63)

/-- Following the spec's words, for comparison with the code: printable
ASCII is the byte range 32..126. -/
def specPrintableAscii (b : Nat) : Bool :=
  32 ≤ b && b ≤ 126

/-- Following the spec's words, for comparison with the code: the
escaping the spec describes — a byte outside printable ASCII, or equal
to backslash or double-quote, becomes `'?'`; the rest stay verbatim. -/
def specEscapeByte (b : Nat) : Nat :=
  if specPrintableAscii b && !(b = 92) && !(b = 34) then b else 63

/-- Claim C2 as stated: the dump escaping agrees with the spec's
printable-ASCII escaping on every payload. -/
def C2Claim : Prop :=
  ∀ data : List Nat, dumpstringdata data = data.map specEscapeByte

/-! ## Enumeration / dump object model

The exporters read richer per-kind data than the validator, so they get
their own view of values and objects. A collectable reference carries the
pointee fields the exporters read through the pointer: string payloads
(used as edge labels and for `__mode`/`__type` lookups), the userdata
payload address (used by `enumtopointer`), and the closure debug fields
(used for thread name synthesis). -/

/-- Debug fields of a closure's prototype read through a `ci->func`
reference during thread name synthesis (`cl->isC`, `cl->l.p->debugname`,
`->linedefined`, `->source`). -/
structure ClosureLite where
  isC : Bool
  pdbg : Option (List Nat)
  pline : Int
  psource : Option (List Nat)
  deriving DecidableEq, Repr

/-- A collectable reference: the pointee's kind, its header address, and
the pointee fields the exporters read through it. -/
inductive GCRef where
  | str (addr : Nat) (data : List Nat)
  | table (addr : Nat)
  | closure (addr : Nat) (lite : ClosureLite)
  | udata (addr : Nat) (dataAddr : Nat)
  | thread (addr : Nat)
  | buffer (addr : Nat)
  | proto (addr : Nat)
  | upval (addr : Nat)
  deriving DecidableEq, Repr

/-- Header address of a referenced object (the raw `GCObject*` value,
which is what `dumpref` prints). -/
def GCRef.headerAddr : GCRef → Nat
  | .str a _ => a
  | .table a => a
  | .closure a _ => a
  | .udata a _ => a
  | .thread a => a
  | .buffer a => a
  | .proto a => a
  | .upval a => a

/-- A `TValue` as the exporters read it. -/
inductive TValue where
  | nil
  | boolean (b : Bool)
  | lightuserdata (p : Nat)
  | number (n : Int)
  | vector
  | gc (r : GCRef)
  deriving DecidableEq, Repr

/-- Model of `iscollectable` on an exporter-view value. -/
def iscollectable (v : TValue) : Bool :=
  match v with
  | .gc _ => true
  | _ => false

/-- Model of `ttisnil` on an exporter-view value. -/
def ttisnil (v : TValue) : Bool :=
  v = .nil

/-- Model of `ttisstring` on an exporter-view value. -/
def ttisstring (v : TValue) : Bool :=
  match v with
  | .gc (.str _ _) => true
  | _ => false

/-- Model of `ttisnumber` on an exporter-view value. -/
def ttisnumber (v : TValue) : Bool :=
  match v with
  | .number _ => true
  | _ => false

/-- Modelled from the spec: the tag byte `ttype(v)` of an exporter-view
value (lua.h, outside src/). -/
def ttypeE (v : TValue) : Nat :=
  match v with
  | .nil => LUA_TNIL
  | .boolean _ => LUA_TBOOLEAN
  | .lightuserdata _ => LUA_TLIGHTUSERDATA
  | .number _ => LUA_TNUMBER
  | .vector => LUA_TVECTOR
  | .gc (.str _ _) => LUA_TSTRING
  | .gc (.table _) => LUA_TTABLE
  | .gc (.closure _ _) => LUA_TFUNCTION
  | .gc (.udata _ _) => LUA_TUSERDATA
  | .gc (.thread _) => LUA_TTHREAD
  | .gc (.buffer _) => LUA_TBUFFER
  | .gc (.proto _) => LUA_TPROTO
  | .gc (.upval _) => LUA_TUPVAL

/-- A hash node as the exporters read it (`LuaNode` key/value pair; the
chain offset is not read by the exporters). -/
structure LNode where
  key : TValue
  val : TValue
  deriving DecidableEq, Repr

/-- A table reached through a `metatable` pointer: its header address and
its hash part (read for `__mode` by the table enumerator and for
`__type` by the userdata enumerator). An empty `node` list models
`&luaH_dummynode`. -/
structure MetaTbl where
  addr : Nat
  node : List LNode
  deriving DecidableEq, Repr

/-- A `TString` as the exporters read it (`len` is `data.length`). -/
structure TStringObj where
  addr : Nat
  memcat : Nat
  data : List Nat
  deriving DecidableEq, Repr

/-- A `LuaTable` as the exporters read it. An empty `node` list models
`&luaH_dummynode`; `node.length` stands for `sizenode(h)`. -/
structure TableObj where
  addr : Nat
  memcat : Nat
  node : List LNode
  array : List TValue
  metatable : Option MetaTbl
  deriving DecidableEq, Repr

/-- Prototype fields read through `cl->l.p` by the closure enumerator. -/
structure ProtoRef where
  addr : Nat
  dbg : Option (List Nat)
  line : Int
  source : Option (List Nat)
  deriving DecidableEq, Repr

/-- Kind-specific payload of a closure as the exporters read it. -/
inductive ClosureImpl where
  | c (debugname : Option (List Nat)) (upvals : List TValue)
  | lua (p : ProtoRef) (uprefs : List TValue)
  deriving DecidableEq, Repr

/-- A `Closure` as the exporters read it. -/
structure ClosureObj where
  addr : Nat
  memcat : Nat
  envAddr : Nat
  impl : ClosureImpl
  deriving DecidableEq, Repr

/-- A `Udata` as the exporters read it. `dataAddr` is the address of the
trailing payload (`u->data`), distinct from the header address. -/
structure UdataObj where
  addr : Nat
  dataAddr : Nat
  memcat : Nat
  len : Nat
  metatable : Option MetaTbl
  deriving DecidableEq, Repr

/-- A `lua_State` (thread) as the exporters read it. `cifuncs` lists the
`ci->func` slots from `base_ci` to `ci`; `stack` the live slots from
`stack` to `top`; `stacksize`/`size_ci` are the allocated sizes used by
the size formula. -/
structure ThreadObj where
  addr : Nat
  memcat : Nat
  stacksize : Nat
  size_ci : Nat
  gtAddr : Nat
  cifuncs : List TValue
  stack : List TValue
  deriving DecidableEq, Repr

/-- A `Buffer` as the exporters read it. -/
structure BufferObj where
  addr : Nat
  memcat : Nat
  len : Nat
  deriving DecidableEq, Repr

/-- A `Proto` as the exporters read it. `subprotos` lists the header
addresses of `p->p[i]`; `execdata` the address of the native code blob
when natively compiled. -/
structure ProtoObj where
  addr : Nat
  memcat : Nat
  sizecode : Nat
  sizelineinfo : Nat
  sizelocvars : Nat
  sizeupvalues : Nat
  k : List TValue
  subprotos : List Nat
  source : Option (List Nat)
  debugname : Option (List Nat)
  linedefined : Int
  execdata : Option Nat
  deriving DecidableEq, Repr

/-- An `UpVal` as the exporters read it. -/
structure UpvalObj where
  addr : Nat
  memcat : Nat
  v : TValue
  deriving DecidableEq, Repr

/-- A heap object as the exporters see it. -/
inductive GCObj where
  | str (s : TStringObj)
  | table (t : TableObj)
  | closure (c : ClosureObj)
  | udata (u : UdataObj)
  | thread (th : ThreadObj)
  | buffer (b : BufferObj)
  | proto (p : ProtoObj)
  | upval (uv : UpvalObj)
  deriving DecidableEq, Repr

/-! ### Size accounting

Modelled from the spec: kind-specific size formulas are "struct header +
variable-length trailing arrays sized from the object's own length
fields". The header/stride constants below are representative 64-bit
values of the C struct layouts (headers outside src/); no claim depends
on their exact numeric values. -/

/-- Modelled from the spec: `sizeof(TValue)`. -/
def sizeofTValue : Nat := 16

/-- Modelled from the spec: `sizeof(LuaNode)`. -/
def sizeofLuaNode : Nat := 32

/-- Modelled from the spec: `sizeof(LuaTable)`. -/
def sizeofLuaTable : Nat := 48

/-- Modelled from the spec: `offsetof(TString, data)`. -/
def offsetTStringData : Nat := 24

/-- Modelled from the spec: `sizestring(len)` — string header plus `len`
payload bytes plus the terminating byte (lstring.h, outside src/). -/
def sizestring (len : Nat) : Nat :=
  offsetTStringData + len + 1

/-- Modelled from the spec: `sizeudata(len)` — userdata header plus `len`
payload bytes (ludata.h, outside src/). -/
def sizeudata (len : Nat) : Nat :=
  16 + len

/-- Modelled from the spec: `sizebuffer(len)` — buffer header plus `len`
payload bytes (lbuffer.h, outside src/). -/
def sizebuffer (len : Nat) : Nat :=
  8 + len

/-- Modelled from the spec: `sizeCclosure(n)` (lfunc.h, outside src/). -/
def sizeCclosure (n : Nat) : Nat :=
  48 + sizeofTValue * n

/-- Modelled from the spec: `sizeLclosure(n)` (lfunc.h, outside src/). -/
def sizeLclosure (n : Nat) : Nat :=
  32 + sizeofTValue * n

/-- Modelled from the spec: `sizeof(lua_State)`. -/
def sizeofLuaState : Nat := 120

/-- Modelled from the spec: `sizeof(CallInfo)`. -/
def sizeofCallInfo : Nat := 40

/-- Modelled from the spec: `sizeof(Proto)`. -/
def sizeofProto : Nat := 96

/-- Modelled from the spec: `sizeof(Instruction)`. -/
def sizeofInstruction : Nat := 4

/-- Modelled from the spec: `sizeof(Proto*)` / `sizeof(TString*)`. -/
def sizeofPtr : Nat := 8

/-- Modelled from the spec: `sizeof(LocVar)`. -/
def sizeofLocVar : Nat := 16

/-- Modelled from the spec: `sizeof(UpVal)`. -/
def sizeofUpVal : Nat := 32

/-- Model of `dumptable`/`enumtable` size formula (lgcdebug.cpp:297,664):
`sizeof(LuaTable)` plus the node array (absent for the dummy node) plus
the array part. -/
def tablesize (h : TableObj) : Nat :=
  sizeofLuaTable +
    (if h.node.isEmpty then 0 else h.node.length * sizeofLuaNode) +
    h.array.length * sizeofTValue

/-- Model of `dumpthread`/`enumthread` size formula (lgcdebug.cpp:399,787). -/
def threadsize (th : ThreadObj) : Nat :=
  sizeofLuaState + sizeofTValue * th.stacksize + sizeofCallInfo * th.size_ci

/-- Model of `dumpproto`/`enumproto` size formula (lgcdebug.cpp:490,830). -/
def protosize (p : ProtoObj) : Nat :=
  sizeofProto + sizeofInstruction * p.sizecode + sizeofPtr * p.subprotos.length +
    sizeofTValue * p.k.length + p.sizelineinfo + sizeofLocVar * p.sizelocvars +
    sizeofPtr * p.sizeupvalues

/-! ### Enumeration API -/

/-- The `name` argument passed to the node callback. The `snprintf`
formatting of the C code is abstracted into constructors that carry the
formatted inputs; a `none` models a NULL `const char*`. -/
inductive EnumName where
  | none
  | registry
  | cname (s : List Nat)
  | funcid (dbg : Option (List Nat)) (line : Int) (src : Option (List Nat))
  | threadid (dbg : Option (List Nat)) (line : Int) (src : List Nat)
  | protoid (dbg : Option (List Nat)) (line : Int) (src : Option (List Nat))
  deriving DecidableEq, Repr

/-- The `name` argument passed to the edge callback. `lit` carries the
fixed C string literals; `keystr` a string key's payload (`svalue` of the
key); `numkey` a numeric key (formatted by `snprintf "%.14g"` in C);
`typekey` a key's tag (formatted as `"[%s]"` of `g->ttname[tt]` in C). -/
inductive EdgeLabel where
  | lit (s : String)
  | keystr (s : List Nat)
  | numkey (n : Int)
  | typekey (tt : Nat)
  deriving DecidableEq, Repr

/-- One callback invocation of the enumeration pass. -/
inductive EnumEvent where
  | node (ptr : Nat) (tt : Nat) (memcat : Nat) (size : Nat) (name : EnumName)
  | edge (src : Nat) (dst : Nat) (label : EdgeLabel)
  deriving DecidableEq, Repr

/-- The slice of `EnumContext`/`global_State` the enumerators read:
the registry table's address, the optional native-code-size callback
(`g->ecb.getmemorysize`, modelled on the prototype's address), and the
`LuauHeapDumpStringSizeOverhead` fast flag. -/
structure EnumContext where
  registryAddr : Nat
  getmemorysize : Option (Nat → Nat)
  fflagStringSizeOverhead : Bool

/-- Model of `enumtopointer` (lgcdebug.cpp:629) applied to a reference: a userdata
pointer is represented by its payload address, every other object by its
header address. -/
def enumtopointer (r : GCRef) : Nat :=
  match r with
  | .udata _ dataAddr => dataAddr
  | _ => r.headerAddr

/-- Model of `enumtopointer` (lgcdebug.cpp:629) applied to a visited heap object. -/
def enumtopointerGCO (o : GCObj) : Nat :=
  match o with
  | .str s => s.addr
  | .table t => t.addr
  | .closure c => c.addr
  | .udata u => u.dataAddr
  | .thread th => th.addr
  | .buffer b => b.addr
  | .proto p => p.addr
  | .upval uv => uv.addr

/-- Model of `enumedges` (lgcdebug.cpp:645): one edge per collectable slot, all
with the same label; `src` is the emitting object's `enumtopointer`. -/
def enumedges (src : Nat) (data : List TValue) (edgename : EdgeLabel) : List EnumEvent :=
  data.flatMap (fun v =>
    match v with
    | .gc r => [.edge src (enumtopointer r) edgename]
    | _ => [])

/-- Model of `enumstring` (lgcdebug.cpp:654): the reported size is
`sizestring(ts->len)` under the `LuauHeapDumpStringSizeOverhead` fast
flag, and the bare payload length `ts->len` otherwise. -/
def enumstring (ctx : EnumContext) (ts : TStringObj) : List EnumEvent :=
  if ctx.fflagStringSizeOverhead then
    [.node ts.addr LUA_TSTRING ts.memcat (sizestring ts.data.length) .none]
  else
    [.node ts.addr LUA_TSTRING ts.memcat ts.data.length .none]

/-- Byte string `"__mode"`. -/
def modeBytes : List Nat := [95, 95, 109, 111, 100, 101]

/-- Byte string `"__type"`. -/
def typeBytes : List Nat := [95, 95, 116, 121, 112, 101]

/-- Modelled from the spec: `luaH_getstr` — the value stored in a table's
hash part under a given string key, `nil` when absent (ltable, outside
src/; the hash lookup is modelled as a search, keys being unique). -/
def luaH_getstrM (node : List LNode) (s : List Nat) : TValue :=
  match node.find? (fun n =>
      match n.key with
      | .gc (.str _ ks) => ks = s
      | _ => false) with
  | some n => n.val
  | none => .nil

/-- Modelled from the spec: `gfasttm(g, h->metatable, TM_MODE)` — the
`__mode` entry of the metatable, NULL when the metatable is absent or the
entry is nil (ltm.h, outside src/). -/
def gfasttmMode (mt : Option MetaTbl) : Option TValue :=
  match mt with
  | none => Option.none
  | some m =>
      let v := luaH_getstrM m.node modeBytes
      if ttisnil v then Option.none else some v

/-- The `weakkey` flag computed by `enumtable` (lgcdebug.cpp:671): the
metatable's `__mode` is a string containing `'k'` (byte 107). -/
def tableweakkey (h : TableObj) : Bool :=
  match gfasttmMode h.metatable with
  | some (.gc (.str _ s)) => s.contains 107
  | _ => false

/-- The `weakvalue` flag computed by `enumtable` (lgcdebug.cpp:672): the
metatable's `__mode` is a string containing `'v'` (byte 118). -/
def tableweakvalue (h : TableObj) : Bool :=
  match gfasttmMode h.metatable with
  | some (.gc (.str _ s)) => s.contains 118
  | _ => false

/-- The edges emitted for one hash node by `enumtable`
(lgcdebug.cpp:683-711): nothing for a nil value or a fully
non-collectable pair; otherwise a `"[key]"` edge to a collectable key
unless weak-keyed, and an edge to a collectable value — labeled by the
key's payload for string keys, its numeric value for number keys, its
type tag otherwise — unless weak-valued. -/
def enumtablenode (haddr : Nat) (weakkey weakvalue : Bool) (n : LNode) : List EnumEvent :=
  if !ttisnil n.val && (iscollectable n.key || iscollectable n.val) then
    (match n.key with
     | .gc kr => if !weakkey then [.edge haddr (enumtopointer kr) (.lit "[key]")] else []
     | _ => []) ++
    (match n.val with
     | .gc vr =>
         if !weakvalue then
           match n.key with
           | .gc (.str _ ks) => [.edge haddr (enumtopointer vr) (.keystr ks)]
           | .number x => [.edge haddr (enumtopointer vr) (.numkey x)]
           | _ => [.edge haddr (enumtopointer vr) (.typekey (ttypeE n.key))]
         else []
     | _ => [])
  else []

/-- Model of `enumtable` (lgcdebug.cpp:662): node (named `"registry"` for the
registry table), hash-part edges honoring the weak mode, array edges,
metatable edge. -/
def enumtable (ctx : EnumContext) (h : TableObj) : List EnumEvent :=
  .node h.addr LUA_TTABLE h.memcat (tablesize h)
      (if h.addr = ctx.registryAddr then .registry else .none) ::
  ((if h.node.isEmpty then []
    else h.node.flatMap (enumtablenode h.addr (tableweakkey h) (tableweakvalue h))) ++
   (if h.array.isEmpty then [] else enumedges h.addr h.array (.lit "array")) ++
   (match h.metatable with
    | some m => [.edge h.addr m.addr (.lit "metatable")]
    | none => []))

/-- Model of `enumclosure` (lgcdebug.cpp:722): node (C debug name, or a
`name:line source` identifier synthesized from the prototype), then the
environment edge, the prototype edge for Lua closures, and upvalue
edges. -/
def enumclosure (cl : ClosureObj) : List EnumEvent :=
  (match cl.impl with
   | .c debugname upvals =>
       EnumEvent.node cl.addr LUA_TFUNCTION cl.memcat (sizeCclosure upvals.length)
         (match debugname with
          | some s => .cname s
          | none => .none)
   | .lua p uprefs =>
       EnumEvent.node cl.addr LUA_TFUNCTION cl.memcat (sizeLclosure uprefs.length)
         (.funcid p.dbg p.line p.source)) ::
  (.edge cl.addr cl.envAddr (.lit "env") ::
   (match cl.impl with
    | .c _ upvals =>
        if upvals.isEmpty then [] else enumedges cl.addr upvals (.lit "upvalue")
    | .lua p uprefs =>
        .edge cl.addr p.addr (.lit "proto") ::
        (if uprefs.isEmpty then [] else enumedges cl.addr uprefs (.lit "upvalue"))))

/-- The `__type` name scan of `enumudata` (lgcdebug.cpp:760-777): the
first hash entry of the metatable whose key and value are both strings
and whose key is `"__type"` supplies the name. -/
def udataTypeName (u : UdataObj) : EnumName :=
  match u.metatable with
  | none => .none
  | some m =>
      if m.node.isEmpty then .none
      else
        match m.node.find? (fun n =>
            match n.key, n.val with
            | .gc (.str _ ks), .gc (.str _ _) => ks = typeBytes
            | _, _ => false) with
        | some n =>
            match n.val with
            | .gc (.str _ vs) => .cname vs
            | _ => .none
        | none => .none

/-- Model of `enumudata` (lgcdebug.cpp:758): node (at the payload address, with the
`__type`-derived name), then the metatable edge. -/
def enumudata (u : UdataObj) : List EnumEvent :=
  .node u.dataAddr LUA_TUSERDATA u.memcat (sizeudata u.len) (udataTypeName u) ::
  (match u.metatable with
   | some m => [.edge u.dataAddr m.addr (.lit "metatable")]
   | none => [])

/-- The `tcl` search of `enumthread` (lgcdebug.cpp:789-797): the first
call frame whose `func` slot holds a function. -/
def threadFirstClosure (cifuncs : List TValue) : Option ClosureLite :=
  match cifuncs.find? (fun v =>
      match v with
      | .gc (.closure _ _) => true
      | _ => false) with
  | some (.gc (.closure _ lite)) => some lite
  | _ => Option.none

/-- The name synthesized for a thread's node by `enumthread`
(lgcdebug.cpp:799-814): a `thread at name:line source` identifier when
the innermost called function is a Lua closure with a source, else
NULL. -/
def threadName (th : ThreadObj) : EnumName :=
  match threadFirstClosure th.cifuncs with
  | some lite =>
      if !lite.isC then
        match lite.psource with
        | some src => .threadid lite.pdbg lite.pline src
        | none => .none
      else .none
  | none => .none

/-- Model of `enumthread` (lgcdebug.cpp:785): node (with the synthesized name),
then the globals edge and the live-stack edges. -/
def enumthread (th : ThreadObj) : List EnumEvent :=
  .node th.addr LUA_TTHREAD th.memcat (threadsize th) (threadName th) ::
  (.edge th.addr th.gtAddr (.lit "globals") ::
   (if th.stack.isEmpty then [] else enumedges th.addr th.stack (.lit "stack")))

/-- Model of `enumbuffer` (lgcdebug.cpp:823). -/
def enumbuffer (b : BufferObj) : List EnumEvent :=
  [.node b.addr LUA_TBUFFER b.memcat (sizebuffer b.len) .none]

/-- Model of `enumproto` (lgcdebug.cpp:828): when natively compiled and a native
size callback is configured, a synthetic node for the native blob (tag
`uint8_t(LUA_TNONE)` = 255, same memory category) and a `"[native]"`
edge from the prototype to it are emitted *before* the prototype's own
node; then the prototype node, constant edges, and sub-prototype edges. -/
def enumproto (ctx : EnumContext) (p : ProtoObj) : List EnumEvent :=
  (match p.execdata, ctx.getmemorysize with
   | some d, some f =>
       [.node d 255 p.memcat (f p.addr) .none,
        .edge p.addr d (.lit "[native]")]
   | _, _ => []) ++
  (.node p.addr LUA_TPROTO p.memcat (protosize p)
      (.protoid p.debugname p.linedefined p.source) ::
   ((if p.k.isEmpty then [] else enumedges p.addr p.k (.lit "constants")) ++
    p.subprotos.map (fun sub => .edge p.addr sub (.lit "protos"))))

/-- Model of `enumupval` (lgcdebug.cpp:857): node, then the referenced-value edge
when collectable. -/
def enumupval (uv : UpvalObj) : List EnumEvent :=
  .node uv.addr LUA_TUPVAL uv.memcat sizeofUpVal .none ::
  (match uv.v with
   | .gc r => [.edge uv.addr (enumtopointer r) (.lit "value")]
   | _ => [])

/-- Model of `enumobj` (lgcdebug.cpp:865): dispatch on the object's tag. -/
def enumobj (ctx : EnumContext) (o : GCObj) : List EnumEvent :=
  match o with
  | .str s => enumstring ctx s
  | .table t => enumtable ctx t
  | .closure c => enumclosure c
  | .udata u => enumudata u
  | .thread th => enumthread th
  | .buffer b => enumbuffer b
  | .proto p => enumproto ctx p
  | .upval uv => enumupval uv

/-- Model of `luaC_enumheap` (lgcdebug.cpp:904): visit the main thread, then every
object yielded by the page iterator (which yields every live object other
than the main thread exactly once). -/
def luaC_enumheap (ctx : EnumContext) (mainthread : ThreadObj) (objs : List GCObj) :
    List EnumEvent :=
  enumobj ctx (.thread mainthread) ++ objs.flatMap (enumobj ctx)

/-! ### JSON dump: table references

`dumptable` (lgcdebug.cpp:295) streams JSON text; we model the sequence
of object references it writes (each a `dumpref` call or an explicit
`null`), eliding the JSON punctuation around them. -/

/-- One reference written by `dumptable`. -/
inductive DumpEvent where
  | pairkey (r : Option Nat)
  | pairval (r : Option Nat)
  | arrayref (r : Nat)
  | metatableref (r : Nat)
  deriving DecidableEq, Repr

/-- The raw `GCObject*` written by `dumpref` for a collectable value
(dump output uses header addresses, with no userdata special case). -/
def dumpvalref (v : TValue) : Option Nat :=
  match v with
  | .gc r => some r.headerAddr
  | _ => Option.none

/-- Model of `dumptable` (lgcdebug.cpp:295): for every hash node with a non-nil
value and at least one collectable side, the key reference (or null) and
the value reference (or null); then the collectable array references;
then the metatable reference. The weak mode is never consulted. -/
def dumptable (h : TableObj) : List DumpEvent :=
  (if h.node.isEmpty then []
   else h.node.flatMap (fun n =>
     if !ttisnil n.val && (iscollectable n.key || iscollectable n.val) then
       [.pairkey (dumpvalref n.key), .pairval (dumpvalref n.val)]
     else [])) ++
  (if h.array.isEmpty then []
   else h.array.flatMap (fun v =>
     match v with
     | .gc r => [DumpEvent.arrayref r.headerAddr]
     | _ => [])) ++
  (match h.metatable with
   | some m => [DumpEvent.metatableref m.addr]
   | none => [])

/-- Model of `dumpstring` (lgcdebug.cpp:288): the dump's string descriptor — its
size field is always `sizestring(ts->len)`, its data the escaped
payload. -/
def dumpstring (ts : TStringObj) : Nat × List Nat :=
  (sizestring ts.data.length, dumpstringdata ts.data)

/-! ## Claim statements and fixtures -/

/-- The pointers mentioned by one callback invocation. -/
def eventPtrs : EnumEvent → List Nat
  | .node p _ _ _ _ => [p]
  | .edge s d _ => [s, d]

/-- The pointer a collectable slot contributes to the callback stream. -/
def refsOfTV (v : TValue) : List Nat :=
  match v with
  | .gc r => [enumtopointer r]
  | _ => []

/-- All pointers the enumeration of one object may mention, computed from
the object's fields: its own `enumtopointer` identity, the
`enumtopointer` image of every reference slot, and its native code blob.
A userdata contributes only its payload address, never its header
address. -/
def allowedOfObj (o : GCObj) : List Nat :=
  match o with
  | .str s => [s.addr]
  | .table t =>
      t.addr :: (t.node.flatMap (fun n => refsOfTV n.key ++ refsOfTV n.val) ++
        t.array.flatMap refsOfTV ++
        (match t.metatable with
         | some m => [m.addr]
         | none => []))
  | .closure c =>
      c.addr :: c.envAddr ::
        (match c.impl with
         | .c _ upvals => upvals.flatMap refsOfTV
         | .lua p uprefs => p.addr :: uprefs.flatMap refsOfTV)
  | .udata u =>
      u.dataAddr ::
        (match u.metatable with
         | some m => [m.addr]
         | none => [])
  | .thread th => th.addr :: th.gtAddr :: th.stack.flatMap refsOfTV
  | .buffer b => [b.addr]
  | .proto p =>
      p.addr :: (p.k.flatMap refsOfTV ++ p.subprotos ++
        (match p.execdata with
         | some d => [d]
         | none => []))
  | .upval uv => uv.addr :: refsOfTV uv.v

/-- All pointers an enumeration pass over the given heap may mention. -/
def allowedPtrs (mainthread : ThreadObj) (objs : List GCObj) : List Nat :=
  allowedOfObj (.thread mainthread) ++ objs.flatMap allowedOfObj

/-- Whether event `j` of the trace is a node callback with pointer `p`. -/
def nodeAtB (l : List EnumEvent) (j p : Nat) : Bool :=
  match l[j]? with
  | some (.node q _ _ _ _) => q = p
  | _ => false

/-- Some node callback with pointer `p` precedes position `i`. -/
def nodeBefore (l : List EnumEvent) (i p : Nat) : Prop :=
  ∃ j, j < i ∧ nodeAtB l j p = true

/-- The pointer whose node demonstrably precedes an edge: the synthetic
`"[native]"` edge is preceded by its target's node (the native blob),
every other edge by its source's node. -/
def reqPtr (src dst : Nat) (lbl : EdgeLabel) : Nat :=
  if lbl = .lit "[native]" then dst else src

/-- A trace in which every edge callback is preceded by the node
callback `reqPtr` designates for it. -/
def goodTrace (l : List EnumEvent) : Prop :=
  ∀ i src dst lbl, l[i]? = some (.edge src dst lbl) → nodeBefore l i (reqPtr src dst lbl)

/-- Claim C5 as stated: in every enumeration pass, each object's node
callback happens no later than any edge callback mentioning that
object's pointer as source or target. -/
def C5Claim : Prop :=
  ∀ (ctx : EnumContext) (mth : ThreadObj) (objs : List GCObj),
    ∀ o ∈ (GCObj.thread mth :: objs), ∀ i src dst lbl,
      (luaC_enumheap ctx mth objs)[i]? = some (.edge src dst lbl) →
      (src = enumtopointerGCO o ∨ dst = enumtopointerGCO o) →
      ∃ j, j ≤ i ∧ nodeAtB (luaC_enumheap ctx mth objs) j (enumtopointerGCO o) = true

/-- Following the spec's words, for comparison with the code: call frames
are strictly ordered and nested — each frame's base at or above the
previous frame's top, each frame's function slot at or below its base, at
or below its top, and the last frame's top within the allocated stack. -/
def specFramesOrdered (th : VThread) : Bool :=
  (th.frames.zip th.frames.tail).all (fun pr => pr.1.top ≤ pr.2.base) &&
  th.frames.all (fun ci => ci.func ≤ ci.base && ci.base ≤ ci.top) &&
  (match th.frames.getLast? with
   | some ci => ci.top ≤ th.stack_last
   | none => true)

/-- Claim C6 as stated: a thread the validator passes has strictly
ordered and nested call frames in the spec's sense. -/
def C6Claim : Prop :=
  ∀ g c th, validatestack g c th = true → specFramesOrdered th = true

/-- Claim C8 as stated: the size reported for every string node is the
allocator's `sizestring(len)` accounting. -/
def C8Claim : Prop :=
  ∀ ctx ts, enumstring ctx ts =
    [.node ts.addr LUA_TSTRING ts.memcat (sizestring ts.data.length) .none]

/-- A table equal to `h` except that its metatable is the table at
address `a` with hash part `nd` (used to state that the dump output
never inspects the metatable's contents, hence never the weak mode). -/
def withMeta (h : TableObj) (a : Nat) (nd : List LNode) : TableObj :=
  { h with metatable := some ⟨a, nd⟩ }

/-- Whether an edge event carries a hash-value edge label (string key
text, formatted number, or bracketed type name). -/
def isHashValueLabelE (e : EnumEvent) : Bool :=
  match e with
  | .edge _ _ (.keystr _) => true
  | .edge _ _ (.numkey _) => true
  | .edge _ _ (.typekey _) => true
  | _ => false

/-- Whether an event is an edge whose target is `d`. -/
def edgeDstIs (e : EnumEvent) (d : Nat) : Bool :=
  match e with
  | .edge _ dst _ => dst = d
  | _ => false

/-- Enumeration context fixture: registry at address 999, no native code
size callback, fast flag off (its default). -/
def ctx0 : EnumContext := ⟨999, Option.none, false⟩

/-- Enumeration context fixture with the
`LuauHeapDumpStringSizeOverhead` fast flag enabled. -/
def ctx1 : EnumContext := ⟨999, Option.none, true⟩

/-- Main thread fixture: empty stack, globals table at address 2. -/
def mth0 : ThreadObj := ⟨1, 0, 0, 0, 2, [], []⟩

/-- Heap fixture for C5: a single empty table at address 2 (the main
thread's globals), visited after the main thread. -/
def objs0 : List GCObj := [.table ⟨2, 0, [], [], Option.none⟩]

/-- Userdata fixture: header at address 10, payload at address 11. -/
def ud0 : UdataObj := ⟨10, 11, 0, 4, Option.none⟩

/-- Heap fixture for C4: the single userdata `ud0`. -/
def objsU : List GCObj := [.udata ud0]

/-- String fixture: payload `"a"`. -/
def ts0 : TStringObj := ⟨20, 0, [97]⟩

/-- Metatable fixture declaring `__mode = "kv"`. -/
def mtKV : MetaTbl := ⟨6, [⟨.gc (.str 8 modeBytes), .gc (.str 9 [107, 118])⟩]⟩

/-- Weak-table fixture: one hash entry mapping string key `"x"` (address
4) to the table at address 5, metatable `mtKV`. -/
def hw0 : TableObj := ⟨3, 0, [⟨.gc (.str 4 [120]), .gc (.table 5)⟩], [], some mtKV⟩

/-- Non-weak table fixture: one hash entry mapping string key `"x"`
(address 4) to the table at address 5, no metatable. -/
def hx0 : TableObj := ⟨3, 0, [⟨.gc (.str 4 [120]), .gc (.table 5)⟩], [], Option.none⟩

/-- Non-weak table fixture with a non-string key: one hash entry mapping
the table at address 7 to the table at address 5. -/
def hkt : TableObj := ⟨3, 0, [⟨.gc (.table 7), .gc (.table 5)⟩], [], Option.none⟩

/-- Collector state fixture: paused collector, white0 current. -/
def gPause : GState := ⟨.GCSpause, true⟩

/-- Collector state fixture: propagate phase (invariant-preserving),
white0 current. -/
def gProp : GState := ⟨.GCSpropagate, true⟩

/-- Collector state fixture: sweep phase, white0 current. -/
def gSweep : GState := ⟨.GCSsweep, true⟩

/-- Thread fixture for C6: two call frames whose per-frame checks all
pass but whose second frame starts below the first frame's top. -/
def thBad : VThread :=
  ⟨0, 10, .white0, [⟨0, 0, 5⟩, ⟨1, 1, 3⟩], [], Option.none, []⟩

/-! ## Theorems -/

/-- Claim C1: a checked strong reference passes exactly when the target
is not dead and — under an invariant-preserving phase — the source being
black excludes the target being white; under `keepinvariant` a black
source with a white target always fires the assertion; outside an
invariant-preserving phase only non-deadness is asserted. -/
theorem c1_validateobjref :
    (∀ g f t, validateobjref g f t = true ↔
      (isdead g t = false ∧
        (keepinvariant g = true → ¬(isblack f = true ∧ iswhite t = true)))) ∧
    (∀ g f t, keepinvariant g = true → isblack f = true → iswhite t = true →
      validateobjref g f t = false) ∧
    (∀ g f t, keepinvariant g = false →
      (validateobjref g f t = true ↔ isdead g t = false)) := by
  refine ⟨?_, ?_, ?_⟩
  · intro g f t
    by_cases hk : keepinvariant g = true
    · cases hd : isdead g t <;> cases hb : isblack f <;> cases hw : iswhite t <;>
        simp [validateobjref, hk, hd, hb, hw]
    · simp only [Bool.not_eq_true] at hk
      simp [validateobjref, hk]
  · intro g f t hk hb hw
    simp [validateobjref, hk, hb, hw]
  · intro g f t hk
    simp [validateobjref, hk]

/-- Witness for C1 at a concrete state: in the propagate phase, a black
source pointing at a (live, current-shade) white target fires the
validator's assertion. -/
theorem c1_validateobjref_witness : validateobjref gProp Color.black Color.white0 = false :=
  c1_validateobjref.2.1 gProp Color.black Color.white0 (by decide) (by decide) (by decide)

/-- Claim C2 as stated is false: byte 127 (DEL) is outside printable
ASCII, yet `safejson` accepts it and the dump writes it verbatim rather
than replacing it with `'?'`. -/
theorem c2_counterexample : ¬C2Claim := by
  intro h
  exact absurd (h [127]) (by decide)

/-- Claim C2 amended: every payload byte below 32 or above 127, and
every backslash or double-quote byte, is replaced by `'?'`; all bytes in
32..127 other than backslash and quote are written verbatim. In
particular a payload with a quote, a backslash, and a byte ≥ 128 has all
three replaced while the printable ASCII bytes survive. -/
theorem c2_dumpstringdata :
    (∀ data : List Nat, dumpstringdata data =
      data.map (fun b => if 32 ≤ b ∧ b ≤ 127 ∧ b ≠ 92 ∧ b ≠ 34 then b else 63)) ∧
    dumpstringdata [97, 34, 98, 92, 99, 200] = [97, 63, 98, 63, 99, 63] := by
  constructor
  · intro data
    simp only [dumpstringdata]
    apply List.map_congr_left
    intro b _
    have hiff : safejson b = true ↔ (32 ≤ b ∧ b ≤ 127 ∧ b ≠ 92 ∧ b ≠ 34) := by
      simp [safejson]
      omega
    by_cases hb : safejson b = true
    · rw [if_pos hb, if_pos (hiff.mp hb)]
    · rw [if_neg hb, if_neg (fun hc => hb (hiff.mpr hc))]
  · decide

/-- Claim C6 as stated is false: the validator accepts `thBad`, whose
second frame's base (1) lies below the first frame's top (5), so passing
validation does not give the spec's inter-frame nesting. -/
theorem c6_counterexample : ¬C6Claim := by
  intro h
  exact absurd (h gPause .white1 thBad (by decide)) (by decide)

/-- Claim C6 amended: for every thread the validator passes, every call
frame individually satisfies `stack <= base`, `func <= base <= top`, and
`top <= stack_last` (so in particular the last frame's top lies within
the allocated stack); the inter-frame relation `base >= previous top` is
not checked. -/
theorem c6_validatestack_frames :
    ∀ g c th, validatestack g c th = true →
      ∀ ci ∈ th.frames,
        th.stack ≤ ci.base ∧ ci.func ≤ ci.base ∧ ci.base ≤ ci.top ∧ ci.top ≤ th.stack_last := by
  intro g c th h ci hci
  simp only [validatestack, Bool.and_eq_true, List.all_eq_true] at h
  have hfr := h.1.1.1.2 ci hci
  simp only [Bool.and_eq_true, decide_eq_true_eq] at hfr
  exact ⟨hfr.1.1, hfr.1.2.1, hfr.1.2.2, hfr.2⟩

/-- Witness for the amended C6 at a concrete passing thread and frame. -/
theorem c6_validatestack_frames_witness :
    thBad.stack ≤ (⟨0, 0, 5⟩ : VFrame).base ∧
      (⟨0, 0, 5⟩ : VFrame).func ≤ (⟨0, 0, 5⟩ : VFrame).base ∧
      (⟨0, 0, 5⟩ : VFrame).base ≤ (⟨0, 0, 5⟩ : VFrame).top ∧
      (⟨0, 0, 5⟩ : VFrame).top ≤ thBad.stack_last :=
  c6_validatestack_frames gPause .white0 thBad (by decide) ⟨0, 0, 5⟩ (by decide)

/-- Claim C7: a dead object passes the validator exactly when the
collector reports the sweep phase — independently of the object's kind
or payload, i.e. the per-kind checks are skipped; a live object runs its
kind-specific checks; a live object with an unrecognized tag is a fatal
assertion. -/
theorem c7_validateobj :
    (∀ g o, isdead g o.colorOf = true → (validateobj g o = true ↔ g.gcstate = .GCSsweep)) ∧
    (∀ g c h, isdead g c = false → validateobj g (.table c h) = validatetable g c h) ∧
    (∀ g c cl, isdead g c = false → validateobj g (.closure c cl) = validateclosure g c cl) ∧
    (∀ g c mc, isdead g c = false →
      validateobj g (.udata c (some mc)) = validateobjref g c mc) ∧
    (∀ g c th, isdead g c = false → validateobj g (.thread c th) = validatestack g c th) ∧
    (∀ g c p, isdead g c = false → validateobj g (.proto c p) = validateproto g c p) ∧
    (∀ g c v, isdead g c = false → validateobj g (.upval c v) = validateref g c v) ∧
    (∀ g c tt, isdead g c = false → validateobj g (.unknown c tt) = false) := by
  refine ⟨?_, ?_, ?_, ?_, ?_, ?_, ?_, ?_⟩
  · intro g o hdead
    simp [validateobj, hdead]
  all_goals intro g c x hlive
  all_goals simp [validateobj, VObj.colorOf, hlive]

/-- Witness for C7: in the sweep phase even a dead object with a
garbage tag byte passes — its checks are skipped. -/
theorem c7_validateobj_witness : validateobj gSweep (VObj.unknown .white1 7) = true :=
  (c7_validateobj.1 gSweep (.unknown .white1 7) (by decide)).mpr (by decide)

/-- Claim C8 as stated is false: with the `LuauHeapDumpStringSizeOverhead`
fast flag off (its default), the enumerator reports the bare payload
length (1 for `ts0`), not `sizestring(len)`. -/
theorem c8_counterexample : ¬C8Claim := by
  intro h
  exact absurd (h ctx0 ts0) (by decide)

/-- Claim C8 amended: with the `LuauHeapDumpStringSizeOverhead` fast
flag enabled, every string node reports the allocator's
`sizestring(len)` accounting (header + payload), not merely the payload
length. -/
theorem c8_enumstring_size :
    ∀ ctx ts, ctx.fflagStringSizeOverhead = true →
      enumstring ctx ts =
        [.node ts.addr LUA_TSTRING ts.memcat (sizestring ts.data.length) .none] := by
  intro ctx ts h
  simp [enumstring, h]

/-- Witness for the amended C8 at a concrete string. -/
theorem c8_enumstring_size_witness :
    ctx1.fflagStringSizeOverhead = true ∧
      enumstring ctx1 ts0 =
        [.node ts0.addr LUA_TSTRING ts0.memcat (sizestring ts0.data.length) .none] :=
  ⟨rfl, c8_enumstring_size ctx1 ts0 rfl⟩

/-! ### Helper lemmas about `enumtable` membership -/

theorem enumedges_mem {src : Nat} {data : List TValue} {lbl : EdgeLabel} {e : EnumEvent}
    (he : e ∈ enumedges src data lbl) :
    ∃ r, TValue.gc r ∈ data ∧ e = .edge src (enumtopointer r) lbl := by
  unfold enumedges at he
  rw [List.mem_flatMap] at he
  obtain ⟨v, hv, hin⟩ := he
  cases v <;> simp at hin
  case gc r => exact ⟨r, hv, hin⟩

theorem enumtable_hash_mem {ctx : EnumContext} {h : TableObj} {n : LNode} {e : EnumEvent}
    (hn : n ∈ h.node)
    (hin : e ∈ enumtablenode h.addr (tableweakkey h) (tableweakvalue h) n) :
    e ∈ enumtable ctx h := by
  have hne : h.node.isEmpty = false := by
    cases hl : h.node
    · rw [hl] at hn; simp at hn
    · rfl
  unfold enumtable
  apply List.mem_cons_of_mem
  apply List.mem_append_left
  apply List.mem_append_left
  rw [if_neg (by simp [hne])]
  exact List.mem_flatMap.mpr ⟨n, hn, hin⟩

theorem mem_enumtable_inv {ctx : EnumContext} {h : TableObj} {e : EnumEvent}
    (he : e ∈ enumtable ctx h) :
    e = EnumEvent.node h.addr LUA_TTABLE h.memcat (tablesize h)
          (if h.addr = ctx.registryAddr then .registry else .none) ∨
    (∃ n ∈ h.node, e ∈ enumtablenode h.addr (tableweakkey h) (tableweakvalue h) n) ∨
    (∃ r, TValue.gc r ∈ h.array ∧ e = .edge h.addr (enumtopointer r) (.lit "array")) ∨
    (∃ m, h.metatable = some m ∧ e = .edge h.addr m.addr (.lit "metatable")) := by
  unfold enumtable at he
  rw [List.mem_cons] at he
  rcases he with he | he
  · exact Or.inl he
  rw [List.mem_append, List.mem_append] at he
  rcases he with (he | he) | he
  · refine Or.inr (Or.inl ?_)
    split at he
    · simp at he
    · exact List.mem_flatMap.mp he
  · refine Or.inr (Or.inr (Or.inl ?_))
    split at he
    · simp at he
    · exact enumedges_mem he
  · refine Or.inr (Or.inr (Or.inr ?_))
    split at he
    · rename_i m heq
      simp at he
      exact ⟨m, heq, he⟩
    · simp at he

theorem enumtablenode_keyedge_inv {haddr : Nat} {wk wv : Bool} {n : LNode} {src dst : Nat}
    (hin : EnumEvent.edge src dst (.lit "[key]") ∈ enumtablenode haddr wk wv n) :
    wk = false ∧ src = haddr ∧ ∃ kr, n.key = .gc kr ∧ dst = enumtopointer kr := by
  unfold enumtablenode at hin
  split at hin
  · rw [List.mem_append] at hin
    rcases hin with hin | hin
    · split at hin
      · rename_i kr heqk
        split at hin
        · rename_i hwk
          simp at hin
          exact ⟨by simpa using hwk, hin.1, kr, heqk, hin.2⟩
        · simp at hin
      · simp at hin
    · split at hin
      · split at hin
        · split at hin <;> simp at hin
        · simp at hin
      · simp at hin
  · simp at hin

theorem enumtablenode_wv_no_value_label {haddr : Nat} {wk : Bool} {n : LNode} {e : EnumEvent}
    (hin : e ∈ enumtablenode haddr wk true n) :
    isHashValueLabelE e = false := by
  unfold enumtablenode at hin
  split at hin
  · rw [List.mem_append] at hin
    rcases hin with hin | hin
    · split at hin
      · split at hin
        · simp at hin
          subst hin
          rfl
        · simp at hin
      · simp at hin
    · split at hin
      · simp at hin
      · simp at hin
  · simp at hin

theorem enumtablenode_keystr_inv {haddr : Nat} {wk wv : Bool} {n : LNode} {src dst : Nat}
    {s : List Nat}
    (hin : EnumEvent.edge src dst (.keystr s) ∈ enumtablenode haddr wk wv n) :
    src = haddr ∧ (∃ a, n.key = .gc (.str a s)) ∧
      ∃ vr, n.val = .gc vr ∧ dst = enumtopointer vr := by
  unfold enumtablenode at hin
  split at hin
  · rw [List.mem_append] at hin
    rcases hin with hin | hin
    · split at hin
      · split at hin <;> simp at hin
      · simp at hin
    · split at hin
      · rename_i vr heqv
        split at hin
        · split at hin
          · rename_i a ks heqk
            simp at hin
            exact ⟨hin.1, ⟨a, by rw [heqk, hin.2.2]⟩, vr, heqv, hin.2.1⟩
          · simp at hin
          · simp at hin
        · simp at hin
      · simp at hin
  · simp at hin

theorem enumtablenode_keyedge_intro {haddr : Nat} {wk wv : Bool} {n : LNode} {kr : GCRef}
    (hwk : wk = false) (hnil : ttisnil n.val = false) (hk : n.key = .gc kr) :
    EnumEvent.edge haddr (enumtopointer kr) (.lit "[key]") ∈ enumtablenode haddr wk wv n := by
  have hnil' : ¬n.val = .nil := by simpa [ttisnil] using hnil
  simp [enumtablenode, hk, hwk, iscollectable, ttisnil, hnil']

theorem enumtablenode_valstr_intro {haddr : Nat} {wk wv : Bool} {n : LNode} {a : Nat}
    {s : List Nat} {vr : GCRef}
    (hwv : wv = false) (hk : n.key = .gc (.str a s)) (hv : n.val = .gc vr) :
    EnumEvent.edge haddr (enumtopointer vr) (.keystr s) ∈ enumtablenode haddr wk wv n := by
  simp [enumtablenode, hk, hv, hwv, iscollectable, ttisnil]

theorem enumtablenode_valnum_intro {haddr : Nat} {wk wv : Bool} {n : LNode} {x : Int}
    {vr : GCRef}
    (hwv : wv = false) (hk : n.key = .number x) (hv : n.val = .gc vr) :
    EnumEvent.edge haddr (enumtopointer vr) (.numkey x) ∈ enumtablenode haddr wk wv n := by
  simp [enumtablenode, hk, hv, hwv, iscollectable, ttisnil]

theorem enumtablenode_valother_intro {haddr : Nat} {wk wv : Bool} {n : LNode} {vr : GCRef}
    (hwv : wv = false) (hs : ttisstring n.key = false) (hx : ttisnumber n.key = false)
    (hv : n.val = .gc vr) :
    EnumEvent.edge haddr (enumtopointer vr) (.typekey (ttypeE n.key)) ∈
      enumtablenode haddr wk wv n := by
  rcases hk : n.key with _ | b | p | x | _ |
      (⟨a, sd⟩ | a | ⟨a, lite⟩ | ⟨a, d⟩ | a | a | a | a)
  case number => rw [hk] at hx; simp [ttisnumber] at hx
  case gc.str => rw [hk] at hs; simp [ttisstring] at hs
  all_goals simp [enumtablenode, hk, hv, hwv, iscollectable, ttisnil, ttypeE]

/-! ### Theorems for claims C3, C9, C10 -/

/-- Claim C3: for hash entries of an enumerated table — a weak-keyed
table emits no `"[key]"` edge at all; a weak-valued table emits no
value edge (no string/number/type-labeled edge) at all; in a table that
is not weak-valued, an entry with a string key and collectable value
emits a value edge labeled by the key's payload (so key `"x"` gives
label `"x"`), a numeric key gives the numeric label, and any other key
kind gives the bracketed type-name label. -/
theorem c3_enumtable_weak :
    (∀ ctx h, tableweakkey h = true →
      ∀ src dst, EnumEvent.edge src dst (.lit "[key]") ∉ enumtable ctx h) ∧
    (∀ ctx h, tableweakvalue h = true →
      ∀ e ∈ enumtable ctx h, isHashValueLabelE e = false) ∧
    (∀ ctx h n a s vr, n ∈ h.node → tableweakvalue h = false →
      n.key = .gc (.str a s) → n.val = .gc vr →
      EnumEvent.edge h.addr (enumtopointer vr) (.keystr s) ∈ enumtable ctx h) ∧
    (∀ ctx h n x vr, n ∈ h.node → tableweakvalue h = false →
      n.key = .number x → n.val = .gc vr →
      EnumEvent.edge h.addr (enumtopointer vr) (.numkey x) ∈ enumtable ctx h) ∧
    (∀ ctx h n vr, n ∈ h.node → tableweakvalue h = false →
      ttisstring n.key = false → ttisnumber n.key = false → n.val = .gc vr →
      EnumEvent.edge h.addr (enumtopointer vr) (.typekey (ttypeE n.key)) ∈ enumtable ctx h) := by
  refine ⟨?_, ?_, ?_, ?_, ?_⟩
  · intro ctx h hwk src dst he
    rcases mem_enumtable_inv he with h1 | ⟨n, hn, hin⟩ | ⟨r, hr, heq⟩ | ⟨m, hm, heq⟩
    · simp at h1
    · have h2 := (enumtablenode_keyedge_inv hin).1
      rw [hwk] at h2
      exact absurd h2 (by decide)
    · simp at heq
    · simp at heq
  · intro ctx h hwv e he
    rcases mem_enumtable_inv he with h1 | ⟨n, hn, hin⟩ | ⟨r, hr, heq⟩ | ⟨m, hm, heq⟩
    · subst h1; rfl
    · rw [hwv] at hin
      exact enumtablenode_wv_no_value_label hin
    · subst heq; rfl
    · subst heq; rfl
  · intro ctx h n a s vr hn hwv hk hv
    exact enumtable_hash_mem hn (enumtablenode_valstr_intro hwv hk hv)
  · intro ctx h n x vr hn hwv hk hv
    exact enumtable_hash_mem hn (enumtablenode_valnum_intro hwv hk hv)
  · intro ctx h n vr hn hwv hs hx hv
    exact enumtable_hash_mem hn (enumtablenode_valother_intro hwv hs hx hv)

/-- Witness for C3 at a concrete table: the entry `"x" -> table@5` of the
non-weak table `hx0` yields a value edge labeled by the key payload. -/
theorem c3_enumtable_weak_witness :
    EnumEvent.edge hx0.addr (enumtopointer (.table 5)) (.keystr [120]) ∈ enumtable ctx0 hx0 :=
  c3_enumtable_weak.2.2.1 ctx0 hx0 ⟨.gc (.str 4 [120]), .gc (.table 5)⟩ 4 [120] (.table 5)
    (by decide) (by decide) rfl rfl

/-- Claim C10: in a table that is not weak-keyed, every hash entry with a
non-nil value and a collectable key emits an edge to the key with the
fixed label `"[key]"`, whatever the key's kind; conversely every edge
whose label is a string-key payload is a *value* edge — its target is
the entry's value, never the key. -/
theorem c10_enumtable_keyedges :
    (∀ ctx h n kr, n ∈ h.node → tableweakkey h = false → ttisnil n.val = false →
      n.key = .gc kr →
      EnumEvent.edge h.addr (enumtopointer kr) (.lit "[key]") ∈ enumtable ctx h) ∧
    (∀ ctx h src dst s, EnumEvent.edge src dst (.keystr s) ∈ enumtable ctx h →
      src = h.addr ∧ ∃ n ∈ h.node, (∃ a, n.key = .gc (.str a s)) ∧
        ∃ vr, n.val = .gc vr ∧ dst = enumtopointer vr) := by
  constructor
  · intro ctx h n kr hn hwk hnil hk
    exact enumtable_hash_mem hn (enumtablenode_keyedge_intro hwk hnil hk)
  · intro ctx h src dst s he
    rcases mem_enumtable_inv he with h1 | ⟨n, hn, hin⟩ | ⟨r, hr, heq⟩ | ⟨m, hm, heq⟩
    · simp at h1
    · obtain ⟨hsrc, hkey, vr, hval, hdst⟩ := enumtablenode_keystr_inv hin
      exact ⟨hsrc, n, hn, hkey, vr, hval, hdst⟩
    · simp at heq
    · simp at heq

/-- Witness for C10 at a concrete table whose key is itself a table: the
key edge still carries the `"[key]"` label. -/
theorem c10_enumtable_keyedges_witness :
    EnumEvent.edge hkt.addr (enumtopointer (.table 7)) (.lit "[key]") ∈ enumtable ctx0 hkt :=
  c10_enumtable_keyedges.1 ctx0 hkt ⟨.gc (.table 7), .gc (.table 5)⟩ (.table 7)
    (by decide) (by decide) (by decide) rfl

/-- Claim C9: the dump exporter's table output never inspects the
metatable's contents (hence never the weak mode); it emits the pair
references of every qualifying hash entry unconditionally; and on the
concrete weak table `hw0` (weak keys and values) the dump still emits
the value reference while the enumerator emits no edge to that value at
all — the two edge sets deliberately differ. -/
theorem c9_dump_vs_enum :
    (∀ h a n1 n2, dumptable (withMeta h a n1) = dumptable (withMeta h a n2)) ∧
    (∀ h n, n ∈ h.node →
      (!ttisnil n.val && (iscollectable n.key || iscollectable n.val)) = true →
      DumpEvent.pairkey (dumpvalref n.key) ∈ dumptable h ∧
      DumpEvent.pairval (dumpvalref n.val) ∈ dumptable h) ∧
    ((tableweakkey hw0 = true ∧ tableweakvalue hw0 = true) ∧
      DumpEvent.pairval (some 5) ∈ dumptable hw0 ∧
      (enumtable ctx0 hw0).all (fun e => !edgeDstIs e 5) = true) := by
  refine ⟨?_, ?_, by decide⟩
  · intro h a n1 n2
    rfl
  · intro h n hn hc
    have hne : h.node.isEmpty = false := by
      cases hl : h.node
      · rw [hl] at hn; simp at hn
      · rfl
    constructor <;>
      · unfold dumptable
        apply List.mem_append_left
        apply List.mem_append_left
        rw [if_neg (by simp [hne])]
        refine List.mem_flatMap.mpr ⟨n, hn, ?_⟩
        simp [hc]

/-- Witness for C9 at the weak table `hw0`: both pair references are
dumped despite the `"kv"` weak mode. -/
theorem c9_dump_vs_enum_witness :
    DumpEvent.pairkey (dumpvalref (.gc (.str 4 [120]))) ∈ dumptable hw0 ∧
      DumpEvent.pairval (dumpvalref (.gc (.table 5))) ∈ dumptable hw0 :=
  c9_dump_vs_enum.2.1 hw0 ⟨.gc (.str 4 [120]), .gc (.table 5)⟩ (by decide) (by decide)

/-! ### Trace-ordering lemmas for C5 -/

theorem nodeAtB_append_left {l1 l2 : List EnumEvent} {j p : Nat}
    (h : nodeAtB l1 j p = true) : nodeAtB (l1 ++ l2) j p = true := by
  unfold nodeAtB at h ⊢
  have hj : j < l1.length := by
    by_contra hge
    rw [List.getElem?_eq_none (Nat.le_of_not_lt hge)] at h
    simp at h
  rw [List.getElem?_append_left hj]
  exact h

theorem goodTrace_nil : goodTrace [] := by
  intro i src dst lbl hi
  simp at hi

theorem goodTrace_append {l1 l2 : List EnumEvent}
    (h1 : goodTrace l1) (h2 : goodTrace l2) : goodTrace (l1 ++ l2) := by
  intro i src dst lbl hi
  by_cases hlt : i < l1.length
  · rw [List.getElem?_append_left hlt] at hi
    obtain ⟨j, hj, hn⟩ := h1 i src dst lbl hi
    exact ⟨j, hj, nodeAtB_append_left hn⟩
  · push_neg at hlt
    rw [List.getElem?_append_right hlt] at hi
    obtain ⟨j, hj, hn⟩ := h2 _ src dst lbl hi
    refine ⟨l1.length + j, by omega, ?_⟩
    unfold nodeAtB at hn ⊢
    rw [List.getElem?_append_right (by omega), Nat.add_sub_cancel_left]
    exact hn

theorem goodTrace_node_cons {p tt mc sz : Nat} {nm : EnumName} {rest : List EnumEvent}
    (h : ∀ src dst lbl, EnumEvent.edge src dst lbl ∈ rest →
      src = p ∧ lbl ≠ .lit "[native]") :
    goodTrace (.node p tt mc sz nm :: rest) := by
  intro i src dst lbl hi
  cases i with
  | zero => simp at hi
  | succ j =>
      rw [List.getElem?_cons_succ] at hi
      obtain ⟨hsrc, hlbl⟩ := h src dst lbl (List.getElem?_mem hi)
      refine ⟨0, Nat.succ_pos j, ?_⟩
      unfold nodeAtB
      simp [reqPtr, hlbl, hsrc]

theorem enumtablenode_edge_shape {haddr : Nat} {wk wv : Bool} {n : LNode}
    {src dst : Nat} {lbl : EdgeLabel}
    (hin : EnumEvent.edge src dst lbl ∈ enumtablenode haddr wk wv n) :
    src = haddr ∧ lbl ≠ .lit "[native]" := by
  unfold enumtablenode at hin
  split at hin
  · rw [List.mem_append] at hin
    rcases hin with hin | hin
    · split at hin
      · split at hin
        · simp at hin
          exact ⟨hin.1, by rw [hin.2.2]; decide⟩
        · simp at hin
      · simp at hin
    · split at hin
      · split at hin
        · split at hin
          · simp at hin
            exact ⟨hin.1, by rw [hin.2.2]; simp⟩
          · simp at hin
            exact ⟨hin.1, by rw [hin.2.2]; simp⟩
          · simp at hin
            exact ⟨hin.1, by rw [hin.2.2]; simp⟩
        · simp at hin
      · simp at hin
  · simp at hin

theorem goodTrace_enumstring (ctx : EnumContext) (ts : TStringObj) :
    goodTrace (enumstring ctx ts) := by
  unfold enumstring
  split <;> exact goodTrace_node_cons (by intro src dst lbl he; simp at he)

theorem goodTrace_enumtable (ctx : EnumContext) (h : TableObj) :
    goodTrace (enumtable ctx h) := by
  unfold enumtable
  apply goodTrace_node_cons
  intro src dst lbl he
  rw [List.mem_append, List.mem_append] at he
  rcases he with (he | he) | he
  · split at he
    · simp at he
    · rw [List.mem_flatMap] at he
      obtain ⟨n, hn, hin⟩ := he
      exact enumtablenode_edge_shape hin
  · split at he
    · simp at he
    · obtain ⟨r, hr, heq⟩ := enumedges_mem he
      simp at heq
      exact ⟨heq.1, by rw [heq.2.2]; decide⟩
  · split at he
    · rename_i m heq2
      simp at he
      exact ⟨he.1, by rw [he.2.2]; decide⟩
    · simp at he

theorem goodTrace_enumclosure (cl : ClosureObj) : goodTrace (enumclosure cl) := by
  rcases himpl : cl.impl with ⟨dbg, upvals⟩ | ⟨p, uprefs⟩ <;>
    simp only [enumclosure, himpl] <;>
    apply goodTrace_node_cons <;>
    intro src dst lbl he <;>
    rw [List.mem_cons] at he
  · rcases he with he | he
    · simp at he
      exact ⟨he.1, by rw [he.2.2]; decide⟩
    · split at he
      · simp at he
      · obtain ⟨r, hr, heq⟩ := enumedges_mem he
        simp at heq
        exact ⟨heq.1, by rw [heq.2.2]; decide⟩
  · rcases he with he | he
    · simp at he
      exact ⟨he.1, by rw [he.2.2]; decide⟩
    · rw [List.mem_cons] at he
      rcases he with he | he
      · simp at he
        exact ⟨he.1, by rw [he.2.2]; decide⟩
      · split at he
        · simp at he
        · obtain ⟨r, hr, heq⟩ := enumedges_mem he
          simp at heq
          exact ⟨heq.1, by rw [heq.2.2]; decide⟩

theorem goodTrace_enumudata (u : UdataObj) : goodTrace (enumudata u) := by
  unfold enumudata
  apply goodTrace_node_cons
  intro src dst lbl he
  split at he
  · simp at he
    exact ⟨he.1, by rw [he.2.2]; decide⟩
  · simp at he

theorem goodTrace_enumthread (th : ThreadObj) : goodTrace (enumthread th) := by
  unfold enumthread
  apply goodTrace_node_cons
  intro src dst lbl he
  rw [List.mem_cons] at he
  rcases he with he | he
  · simp at he
    exact ⟨he.1, by rw [he.2.2]; decide⟩
  · split at he
    · simp at he
    · obtain ⟨r, hr, heq⟩ := enumedges_mem he
      simp at heq
      exact ⟨heq.1, by rw [heq.2.2]; decide⟩

theorem goodTrace_enumbuffer (b : BufferObj) : goodTrace (enumbuffer b) :=
  goodTrace_node_cons (by intro src dst lbl he; simp at he)

theorem goodTrace_enumupval (uv : UpvalObj) : goodTrace (enumupval uv) := by
  unfold enumupval
  apply goodTrace_node_cons
  intro src dst lbl he
  split at he
  · simp at he
    exact ⟨he.1, by rw [he.2.2]; decide⟩
  · simp at he

theorem goodTrace_enumproto (ctx : EnumContext) (p : ProtoObj) :
    goodTrace (enumproto ctx p) := by
  have htail : goodTrace
      (EnumEvent.node p.addr LUA_TPROTO p.memcat (protosize p)
          (.protoid p.debugname p.linedefined p.source) ::
        ((if p.k.isEmpty then [] else enumedges p.addr p.k (.lit "constants")) ++
          p.subprotos.map (fun sub => .edge p.addr sub (.lit "protos")))) := by
    apply goodTrace_node_cons
    intro src dst lbl he
    rw [List.mem_append] at he
    rcases he with he | he
    · split at he
      · simp at he
      · obtain ⟨r, hr, heq⟩ := enumedges_mem he
        simp at heq
        exact ⟨heq.1, by rw [heq.2.2]; decide⟩
    · rw [List.mem_map] at he
      obtain ⟨sub, hsub, heq⟩ := he
      simp at heq
      exact ⟨heq.1.symm, by rw [← heq.2.2]; decide⟩
  rcases hexec : p.execdata with _ | d <;> rcases hget : ctx.getmemorysize with _ | f <;>
    simp only [enumproto, hexec, hget, List.nil_append]
  · exact htail
  · exact htail
  · exact htail
  · intro i src dst lbl hi
    rcases i with _ | _ | i
    · simp at hi
    · simp only [List.cons_append, List.getElem?_cons_succ, List.getElem?_cons_zero] at hi
      simp only [Option.some_inj, EnumEvent.edge.injEq] at hi
      refine ⟨0, by omega, ?_⟩
      unfold nodeAtB reqPtr
      simp only [List.cons_append, List.getElem?_cons_zero]
      rw [← hi.2.2]
      simp [← hi.2.1]
    · simp only [List.cons_append, List.getElem?_cons_succ] at hi
      obtain ⟨j, hj, hn⟩ := htail i src dst lbl hi
      refine ⟨j + 2, by omega, ?_⟩
      unfold nodeAtB at hn ⊢
      simp only [List.cons_append, List.getElem?_cons_succ]
      exact hn

theorem goodTrace_enumobj (ctx : EnumContext) (o : GCObj) :
    goodTrace (enumobj ctx o) := by
  cases o with
  | str s => exact goodTrace_enumstring ctx s
  | table t => exact goodTrace_enumtable ctx t
  | closure c => exact goodTrace_enumclosure c
  | udata u => exact goodTrace_enumudata u
  | thread th => exact goodTrace_enumthread th
  | buffer b => exact goodTrace_enumbuffer b
  | proto p => exact goodTrace_enumproto ctx p
  | upval uv => exact goodTrace_enumupval uv

theorem goodTrace_flatMap (ctx : EnumContext) :
    ∀ objs : List GCObj, goodTrace (objs.flatMap (enumobj ctx))
  | [] => by simpa using goodTrace_nil
  | o :: rest => by
      rw [List.flatMap_cons]
      exact goodTrace_append (goodTrace_enumobj ctx o) (goodTrace_flatMap ctx rest)

/-- Claim C5 as stated is false: in the concrete heap `objs0`, the
`"globals"` edge from the main thread (trace position 1) mentions the
globals table (pointer 2) as target, but that table's node callback only
comes later (position 2). -/
theorem c5_counterexample : ¬C5Claim := by
  intro h
  obtain ⟨j, hj, hb⟩ :=
    h ctx0 mth0 objs0 (.table ⟨2, 0, [], [], Option.none⟩) (by decide) 1 1 2 (.lit "globals")
      (by decide) (Or.inr (by decide))
  rcases j with _ | _ | j
  · exact absurd hb (by decide)
  · exact absurd hb (by decide)
  · omega

/-- Claim C5 amended: every edge callback is preceded (strictly) by a
node callback whose pointer is the edge's *source* — except a
prototype's synthetic `"[native]"` edge, which is instead preceded by
the node of its *target*, the native code blob (and precedes the
prototype's own node); an edge's target node may in general be emitted
only later in the pass. -/
theorem c5_node_before_edge :
    ∀ ctx mth objs i src dst lbl,
      (luaC_enumheap ctx mth objs)[i]? = some (.edge src dst lbl) →
      nodeBefore (luaC_enumheap ctx mth objs) i (reqPtr src dst lbl) := by
  intro ctx mth objs
  exact goodTrace_append (goodTrace_enumobj ctx (.thread mth)) (goodTrace_flatMap ctx objs)

/-- Witness for the amended C5: the `"globals"` edge at position 1 of
the concrete trace is preceded by the node of its source (the main
thread). -/
theorem c5_node_before_edge_witness :
    nodeBefore (luaC_enumheap ctx0 mth0 objs0) 1 (reqPtr 1 2 (.lit "globals")) :=
  c5_node_before_edge ctx0 mth0 objs0 1 1 2 (.lit "globals") (by decide)

/-! ### Pointer-identity lemmas for C4 -/

theorem refsOfTV_flatMap_mem {r : GCRef} {data : List TValue} (h : TValue.gc r ∈ data) :
    enumtopointer r ∈ data.flatMap refsOfTV :=
  List.mem_flatMap.mpr ⟨.gc r, h, by simp [refsOfTV]⟩

theorem enumtablenode_ptrs {haddr : Nat} {wk wv : Bool} {n : LNode} {e : EnumEvent}
    (hin : e ∈ enumtablenode haddr wk wv n) :
    ∀ q ∈ eventPtrs e, q = haddr ∨ q ∈ refsOfTV n.key ++ refsOfTV n.val := by
  unfold enumtablenode at hin
  split at hin
  · rw [List.mem_append] at hin
    rcases hin with hin | hin
    · split at hin
      · rename_i kr heqk
        split at hin
        · simp at hin
          subst hin
          intro q hq
          simp [eventPtrs] at hq
          rcases hq with hq | hq
          · exact Or.inl hq
          · right
            rw [List.mem_append]
            left
            rw [heqk, hq]
            exact List.mem_singleton_self _
        · simp at hin
      · simp at hin
    · split at hin
      · rename_i vr heqv
        split at hin
        · split at hin <;>
          · simp at hin
            subst hin
            intro q hq
            simp [eventPtrs] at hq
            rcases hq with hq | hq
            · exact Or.inl hq
            · right
              rw [List.mem_append]
              right
              rw [heqv, hq]
              exact List.mem_singleton_self _
        · simp at hin
      · simp at hin
  · simp at hin

theorem allowed_enumobj (ctx : EnumContext) (o : GCObj) :
    ∀ e ∈ enumobj ctx o, ∀ q ∈ eventPtrs e, q ∈ allowedOfObj o := by
  cases o with
  | str s =>
      intro e he q hq
      simp only [enumobj] at he
      unfold enumstring at he
      split at he <;>
        · simp at he
          subst he
          simp [eventPtrs] at hq
          simp [allowedOfObj, hq]
  | table t =>
      intro e he q hq
      rcases mem_enumtable_inv he with h1 | ⟨n, hn, hin⟩ | ⟨r, hr, heq⟩ | ⟨m, hm, heq⟩
      · subst h1
        simp [eventPtrs] at hq
        simp [allowedOfObj, hq]
      · rcases enumtablenode_ptrs hin q hq with hq1 | hq1
        · simp [allowedOfObj, hq1]
        · unfold allowedOfObj
          rw [List.mem_cons]
          right
          rw [List.mem_append]
          left
          rw [List.mem_append]
          left
          exact List.mem_flatMap.mpr ⟨n, hn, hq1⟩
      · subst heq
        simp [eventPtrs] at hq
        rcases hq with hq | hq
        · simp [allowedOfObj, hq]
        · unfold allowedOfObj
          rw [List.mem_cons]
          right
          rw [List.mem_append]
          left
          rw [List.mem_append]
          right
          rw [hq]
          exact refsOfTV_flatMap_mem hr
      · subst heq
        simp [eventPtrs] at hq
        rcases hq with hq | hq
        · simp [allowedOfObj, hq]
        · unfold allowedOfObj
          rw [List.mem_cons]
          right
          rw [List.mem_append]
          right
          rw [hm]
          simp [hq]
  | closure c =>
      intro e he q hq
      rcases himpl : c.impl with ⟨dbg, upvals⟩ | ⟨p, uprefs⟩ <;>
        simp only [enumobj, enumclosure, himpl] at he <;>
        rw [List.mem_cons] at he
      · rcases he with he | he
        · subst he
          simp [eventPtrs] at hq
          simp [allowedOfObj, hq]
        · rw [List.mem_cons] at he
          rcases he with he | he
          · subst he
            simp [eventPtrs] at hq
            rcases hq with hq | hq <;> simp [allowedOfObj, himpl, hq]
          · split at he
            · simp at he
            · obtain ⟨r, hr, heq⟩ := enumedges_mem he
              subst heq
              simp [eventPtrs] at hq
              rcases hq with hq | hq
              · simp [allowedOfObj, hq]
              · unfold allowedOfObj
                rw [List.mem_cons]
                right
                rw [List.mem_cons]
                right
                rw [himpl, hq]
                exact refsOfTV_flatMap_mem hr
      · rcases he with he | he
        · subst he
          simp [eventPtrs] at hq
          simp [allowedOfObj, hq]
        · rw [List.mem_cons] at he
          rcases he with he | he
          · subst he
            simp [eventPtrs] at hq
            rcases hq with hq | hq <;> simp [allowedOfObj, himpl, hq]
          · rw [List.mem_cons] at he
            rcases he with he | he
            · subst he
              simp [eventPtrs] at hq
              rcases hq with hq | hq <;> simp [allowedOfObj, himpl, hq]
            · split at he
              · simp at he
              · obtain ⟨r, hr, heq⟩ := enumedges_mem he
                subst heq
                simp [eventPtrs] at hq
                rcases hq with hq | hq
                · simp [allowedOfObj, hq]
                · unfold allowedOfObj
                  rw [List.mem_cons]
                  right
                  rw [List.mem_cons]
                  right
                  rw [himpl]
                  rw [List.mem_cons]
                  right
                  rw [hq]
                  exact refsOfTV_flatMap_mem hr
  | udata u =>
      intro e he q hq
      simp only [enumobj] at he
      unfold enumudata at he
      rw [List.mem_cons] at he
      rcases he with he | he
      · subst he
        simp [eventPtrs] at hq
        simp [allowedOfObj, hq]
      · split at he
        · rename_i m heqm
          simp at he
          subst he
          simp [eventPtrs] at hq
          rcases hq with hq | hq
          · simp [allowedOfObj, hq]
          · unfold allowedOfObj
            rw [List.mem_cons]
            right
            rw [heqm]
            simp [hq]
        · simp at he
  | thread th =>
      intro e he q hq
      simp only [enumobj] at he
      unfold enumthread at he
      rw [List.mem_cons] at he
      rcases he with he | he
      · subst he
        simp [eventPtrs] at hq
        simp [allowedOfObj, hq]
      · rw [List.mem_cons] at he
        rcases he with he | he
        · subst he
          simp [eventPtrs] at hq
          rcases hq with hq | hq <;> simp [allowedOfObj, hq]
        · split at he
          · simp at he
          · obtain ⟨r, hr, heq⟩ := enumedges_mem he
            subst heq
            simp [eventPtrs] at hq
            rcases hq with hq | hq
            · simp [allowedOfObj, hq]
            · unfold allowedOfObj
              rw [List.mem_cons]
              right
              rw [List.mem_cons]
              right
              rw [hq]
              exact refsOfTV_flatMap_mem hr
  | buffer b =>
      intro e he q hq
      simp only [enumobj] at he
      unfold enumbuffer at he
      simp at he
      subst he
      simp [eventPtrs] at hq
      simp [allowedOfObj, hq]
  | proto p =>
      intro e he q hq
      have htail : ∀ e, e ∈ (EnumEvent.node p.addr LUA_TPROTO p.memcat (protosize p)
            (.protoid p.debugname p.linedefined p.source) ::
          ((if p.k.isEmpty then [] else enumedges p.addr p.k (.lit "constants")) ++
            p.subprotos.map (fun sub => .edge p.addr sub (.lit "protos")))) →
          ∀ q ∈ eventPtrs e, q ∈ allowedOfObj (.proto p) := by
        intro e he q hq
        rw [List.mem_cons] at he
        rcases he with he | he
        · subst he
          simp [eventPtrs] at hq
          simp [allowedOfObj, hq]
        · rw [List.mem_append] at he
          rcases he with he | he
          · split at he
            · simp at he
            · obtain ⟨r, hr, heq⟩ := enumedges_mem he
              subst heq
              simp [eventPtrs] at hq
              rcases hq with hq | hq
              · simp [allowedOfObj, hq]
              · unfold allowedOfObj
                rw [List.mem_cons]
                right
                rw [List.mem_append]
                left
                rw [List.mem_append]
                left
                rw [hq]
                exact refsOfTV_flatMap_mem hr
          · rw [List.mem_map] at he
            obtain ⟨sub, hsub, heq⟩ := he
            subst heq
            simp [eventPtrs] at hq
            rcases hq with hq | hq
            · simp [allowedOfObj, hq]
            · unfold allowedOfObj
              rw [List.mem_cons]
              right
              rw [List.mem_append]
              left
              rw [List.mem_append]
              right
              rw [hq]
              exact hsub
      rcases hexec : p.execdata with _ | d <;> rcases hget : ctx.getmemorysize with _ | f <;>
        simp only [enumobj, enumproto, hexec, hget, List.nil_append] at he
      · exact htail e he q hq
      · exact htail e he q hq
      · exact htail e he q hq
      · rw [List.cons_append, List.mem_cons] at he
        rcases he with he | he
        · subst he
          simp [eventPtrs] at hq
          unfold allowedOfObj
          rw [List.mem_cons]
          right
          rw [List.mem_append]
          right
          rw [hexec]
          simp [hq]
        · rw [List.cons_append, List.nil_append, List.mem_cons] at he
          rcases he with he | he
          · subst he
            simp [eventPtrs] at hq
            rcases hq with hq | hq
            · simp [allowedOfObj, hq]
            · unfold allowedOfObj
              rw [List.mem_cons]
              right
              rw [List.mem_append]
              right
              rw [hexec]
              simp [hq]
          · exact htail e he q hq
  | upval uv =>
      intro e he q hq
      simp only [enumobj] at he
      unfold enumupval at he
      rw [List.mem_cons] at he
      rcases he with he | he
      · subst he
        simp [eventPtrs] at hq
        simp [allowedOfObj, hq]
      · split at he
        · rename_i r heqr
          simp at he
          subst he
          simp [eventPtrs] at hq
          rcases hq with hq | hq
          · simp [allowedOfObj, hq]
          · unfold allowedOfObj
            rw [List.mem_cons]
            right
            rw [heqr]
            simp [refsOfTV, hq]
        · simp at he

/-- Claim C4: in every enumeration pass over a heap containing a
userdata `u` whose header address appears nowhere among the pointers the
heap's fields can produce (`allowedPtrs` represents every userdata only
by its payload address), the node callback for `u` reports the payload
address `u.dataAddr` (with the userdata tag, category, `sizeudata` size
and `__type`-derived name); every pointer in every callback of the pass
lies in `allowedPtrs`; and consequently no callback of the pass ever
mentions `u`'s header address — the payload address is the one identity
used everywhere. -/
theorem c4_enumheap_udata_pointers (ctx : EnumContext) (mth : ThreadObj)
    (objs : List GCObj) (u : UdataObj)
    (hu : GCObj.udata u ∈ objs) (hheader : u.addr ∉ allowedPtrs mth objs) :
    (EnumEvent.node u.dataAddr LUA_TUSERDATA u.memcat (sizeudata u.len) (udataTypeName u)
        ∈ luaC_enumheap ctx mth objs) ∧
    (∀ e ∈ luaC_enumheap ctx mth objs, ∀ q ∈ eventPtrs e, q ∈ allowedPtrs mth objs) ∧
    (∀ e ∈ luaC_enumheap ctx mth objs, u.addr ∉ eventPtrs e) := by
  have hsubset : ∀ e ∈ luaC_enumheap ctx mth objs, ∀ q ∈ eventPtrs e,
      q ∈ allowedPtrs mth objs := by
    intro e he q hq
    unfold luaC_enumheap at he
    rw [List.mem_append] at he
    unfold allowedPtrs
    rcases he with he | he
    · exact List.mem_append_left _ (allowed_enumobj ctx _ e he q hq)
    · rw [List.mem_flatMap] at he
      obtain ⟨o, ho, he⟩ := he
      exact List.mem_append_right _
        (List.mem_flatMap.mpr ⟨o, ho, allowed_enumobj ctx o e he q hq⟩)
  refine ⟨?_, hsubset, fun e he hq => hheader (hsubset e he u.addr hq)⟩
  unfold luaC_enumheap
  rw [List.mem_append]
  right
  rw [List.mem_flatMap]
  exact ⟨.udata u, hu, by simp [enumobj, enumudata]⟩

/-- Witness for C4 at a concrete heap: the single userdata (header 10,
payload 11) has its node reported at pointer 11, and 10 is indeed not a
producible pointer. -/
theorem c4_enumheap_udata_pointers_witness :
    (GCObj.udata ud0 ∈ objsU ∧ ud0.addr ∉ allowedPtrs mth0 objsU) ∧
      EnumEvent.node ud0.dataAddr LUA_TUSERDATA ud0.memcat (sizeudata ud0.len)
        (udataTypeName ud0) ∈ luaC_enumheap ctx0 mth0 objsU :=
  ⟨⟨by decide, by decide⟩,
    (c4_enumheap_udata_pointers ctx0 mth0 objsU ud0 (by decide) (by decide)).1⟩

end LuauGcDebug
